import Mathlib

/-!
Verification development for the accounts-payable analyzer
(`src/pages/SmartApps.py`).  The analyzers are shallowly embedded as pure
Lean functions over an explicit table model:

* a cell value is a string, an integer amount, or a date (a day number);
* a row is an association list from column names to values (pandas rows of
  one frame share a schema; the model allows any association list);
* a table is a list of rows in insertion order.

Dates are modelled at day precision (the code normalizes with
`pd.to_datetime(...).dt.days` arithmetic); amounts are modelled as integers
(floating point is outside the embedding).  `daysFromCivil` is the standard
civil-calendar day count so that concrete scenarios can relate calendar
dates to day differences.
-/

inductive Value where
  | str (s : String)
  | num (n : Int)
  | date (d : Int)
deriving DecidableEq, Repr

abbrev Row := List (String × Value)

abbrev Table := List Row

/-- Column lookup, first binding wins (pandas column access; a missing
column is a caller error in the source, modelled by an empty-string
default). -/
def Row.get : Row → String → Value
  | [], _ => Value.str ""
  | p :: t, f => if p.1 == f then p.2 else Row.get t f

/-- Column assignment `df[f] = v` restricted to one row: replace every
binding of `f`, or append one if the column is absent (pandas creates the
column in that case). -/
def Row.set (r : Row) (f : String) (v : Value) : Row :=
  if r.any (fun p => p.1 == f) then
    r.map (fun p => if p.1 == f then (f, v) else p)
  else
    r ++ [(f, v)]

/-- `pd.to_datetime` on a cell: a date stays itself; other cells are given
a trivial total reading so the function is total (the source raises on
unparseable dates; the claims are stated for tables whose date column is
already in date form). -/
def Value.toDateD : Value → Int
  | .date d => d
  | .num n => n
  | .str _ => 0

/-- Numeric reading of a cell (amount and limit columns are numeric by the
ingestion contract). -/
def Value.toNum : Value → Int
  | .num n => n
  | .date d => d
  | .str _ => 0

/-- Is the cell already a date?  Used to state that a date column is in
canonical (already-parsed) form. -/
def Value.isDate : Value → Bool
  | .date _ => true
  | _ => false

/-- Day number of a civil calendar date (standard `days_from_civil`
computation, era/year-of-era decomposition), for years `≥ 1`.  Only day
differences matter to the analyzers. -/
def daysFromCivil (y m d : Nat) : Nat :=
  let y' := if m ≤ 2 then y - 1 else y
  let era := y' / 400
  let yoe := y' % 400
  let mp := (m + 9) % 12
  let doy := (153 * mp + 2) / 5 + d - 1
  let doe := yoe * 365 + yoe / 4 - yoe / 100 + doy
  era * 146097 + doe

/-- A date cell for the given calendar date. -/
def mkDate (y m d : Nat) : Value :=
  Value.date (Int.ofNat (daysFromCivil y m d))

/-- `pd.to_datetime(df[f])` column conversion over a whole table. -/
def toDatetime (df : Table) (f : String) : Table :=
  df.map (fun r => r.set f (Value.date ((r.get f).toDateD)))

/-- The tuple of values a row takes on the given key columns (the `subset`
of `DataFrame.duplicated`). -/
def keyTuple (r : Row) (fs : List String) : List Value :=
  fs.map (fun f => r.get f)

/-- `DataFrame.drop_duplicates` / distinct keys of a `groupby`: keep the
first occurrence of every value. -/
def dropDuplicates {α : Type} [DecidableEq α] (l : List α) : List α :=
  l.foldl (fun acc r => if r ∈ acc then acc else acc ++ [r]) []

/-- A table is date-canonical on column `daf` when every row stores an
already-parsed date there and binds each column once (a pandas frame has
one column per name; duplicated names would break the source itself). -/
def DateCanon (df : Table) (daf : String) : Prop :=
  ∀ r ∈ df, (r.get daf).isDate = true ∧ (r.map Prod.fst).Nodup

instance (df : Table) (daf : String) : Decidable (DateCanon df daf) :=
  inferInstanceAs (Decidable (∀ r ∈ df, (r.get daf).isDate = true ∧ (r.map Prod.fst).Nodup))

/-! ### Aging analyzer (AP01) -/

/-- The f-string `f'{prev+1}-{period} days'` of `assign_bucket`. -/
def bucketLabel (prev p : Int) : String :=
  toString (prev + 1) ++ "-" ++ toString p ++ " days"

/-- The f-string `f'Over {period_list[-1]} days'` of `assign_bucket`. -/
def overLabel (m : Int) : String :=
  "Over " ++ toString m ++ " days"

/-- The `for i, period in enumerate(period_list)` scan of `assign_bucket`,
threading the previous threshold (`period_list[i-1] if i > 0 else 0`). -/
def bucketLoop (days : Int) (prev : Int) : List Int → Option String
  | [] => none
  | p :: rest => if days ≤ p then some (bucketLabel prev p) else bucketLoop days p rest

/-- `assign_bucket` from `ap01_aging_analysis`.  On an empty threshold
list the source raises `IndexError` (`period_list[-1]`); the model reads
the last threshold with default `0`, and all claims assume a non-empty
list. -/
def assignBucket (ps : List Int) (days : Int) : String :=
  if days < 0 then "Future"
  else
    match bucketLoop days 0 ps with
    | some s => s
    | none => overLabel (ps.getLastD 0)

/-- `df['Days_Old'] = (cutoff - df[date_field]).dt.days`. -/
def addDaysOld (df : Table) (dateF : String) (cutoff : Int) : Table :=
  df.map (fun r => r.set "Days_Old" (Value.num (cutoff - (r.get dateF).toDateD)))

/-- `df['Age_Bucket'] = df['Days_Old'].apply(assign_bucket)`. -/
def addBucket (df : Table) (ps : List Int) : Table :=
  df.map (fun r => r.set "Age_Bucket" (Value.str (assignBucket ps ((r.get "Days_Old").toNum))))

/-- `df.groupby('Age_Bucket')[amount_field].agg(['sum', 'count'])`: one
summary row `(bucket, Total_Amount, Count)` per distinct bucket value.
The source iterates groups in pandas key order; the claims do not fix the
order, and the model uses first-occurrence order. -/
def agingSummary (df : Table) (amf : String) : List (Value × Int × Nat) :=
  (dropDuplicates (df.map (fun r => r.get "Age_Bucket"))).map (fun k =>
    (k,
     ((df.filter (fun r => r.get "Age_Bucket" == k)).map (fun r => (r.get amf).toNum)).sum,
     (df.filter (fun r => r.get "Age_Bucket" == k)).length))

/-- `ap01_aging_analysis` (value level): the annotated table and the
per-bucket summary.  The `df.copy()` of the source is the subject of the
mutation claim and is modelled separately by `ap01_prog`. -/
def ap01_aging_analysis (df : Table) (dateF amf : String) (cutoff : Int)
    (ps : List Int) : Table × List (Value × Int × Nat) :=
  let df3 := addBucket (addDaysOld (toDatetime df dateF) dateF cutoff) ps
  (df3, agingSummary df3 amf)

/-! ### Duplicate analyzer (AP02) -/

/-- An arbitrary total comparison on characters (by code point), used only
to realize `sort_values`; no claim depends on the sort order, only on the
sorted table being a permutation of the input. -/
def charsLe : List Char → List Char → Bool
  | [], _ => true
  | _ :: _, [] => false
  | a :: as, b :: bs =>
    if a.toNat < b.toNat then true
    else if b.toNat < a.toNat then false
    else charsLe as bs

/-- A total comparison on cell values (strings, then numbers, then dates),
realizing the key order of `sort_values`. -/
def Value.leB : Value → Value → Bool
  | .str a, .str b => charsLe a.data b.data
  | .str _, _ => true
  | .num _, .str _ => false
  | .num a, .num b => decide (a ≤ b)
  | .num _, .date _ => true
  | .date _, .str _ => false
  | .date _, .num _ => false
  | .date a, .date b => decide (a ≤ b)

/-- Lexicographic comparison of key tuples. -/
def listValLe : List Value → List Value → Bool
  | [], _ => true
  | _ :: _, [] => false
  | a :: as, b :: bs => if a = b then listValLe as bs else a.leB b

/-- `df.sort_values(fs)`: sort rows by the key columns.  Realized with a
stable insertion sort; the claims only use that the result is a
permutation of the input. -/
def sortByKeys (df : Table) (fs : List String) : Table :=
  List.insertionSort (fun r s => listValLe (keyTuple r fs) (keyTuple s fs) = true) df

/-- The nested `for i / for j in range(i+1, ...)` pair scan of the near
strategies: every matching pair `(g[i], g[j])`, `i < j`, contributes both
rows, in scan order. -/
def matchPairs (P : Row → Row → Bool) : List Row → List Row
  | [] => []
  | r :: rest => (rest.filter (fun s => P r s)).flatMap (fun s => [r, s]) ++ matchPairs P rest

/-- `groupby` + pair scan + `drop_duplicates` shared by `near_invoice` and
`near_date`: group the (sorted) table by the fixed key columns, collect
all tolerance-matching pairs inside each group, and collapse repeated
rows.  The source skips singleton groups (`len(group) > 1`), which is a
no-op since a singleton yields no pair. -/
def nearCore (df : Table) (groupFs : List String) (P : Row → Row → Bool)
    (sortFs : List String) : Table :=
  let df' := sortByKeys df sortFs
  let keys := dropDuplicates (df'.map (fun r => keyTuple r groupFs))
  dropDuplicates (keys.flatMap (fun k =>
    matchPairs P (df'.filter (fun r => keyTuple r groupFs == k))))

/-- The pair predicate of `near_invoice`: date difference within tolerance
and equal amounts (`date_diff <= tolerance and amount_match`). -/
def nearInvoiceP (daf amf : String) (tol : Int) (r s : Row) : Bool :=
  decide (|(r.get daf).toDateD - (s.get daf).toDateD| ≤ tol) && (r.get amf == s.get amf)

/-- The pair predicate of `near_date`: date difference within tolerance. -/
def nearDateP (daf : String) (tol : Int) (r s : Row) : Bool :=
  decide (|(r.get daf).toDateD - (s.get daf).toDateD| ≤ tol)

/-- `near_invoice` after the date-column conversion: group by
`(vendor, invoice)`, pair-scan with the tolerance-and-amount predicate. -/
def nearInvoiceCore (df1 : Table) (vf inf daf amf : String) (tol : Int) : Table :=
  nearCore df1 [vf, inf] (nearInvoiceP daf amf tol) [vf, inf, daf]

/-- `near_date` after the date-column conversion: group by
`(vendor, invoice, amount)`, pair-scan with the tolerance predicate. -/
def nearDateCore (df1 : Table) (vf inf daf amf : String) (tol : Int) : Table :=
  nearCore df1 [vf, inf, amf] (nearDateP daf tol) [vf, inf, amf, daf]

/-- `df[df.duplicated(subset=fs, keep=False)]`: keep every row whose key
tuple occurs at least twice in the table. -/
def exactDup (df : Table) (fs : List String) : Table :=
  df.filter (fun r => decide (2 ≤ df.countP (fun s => keyTuple s fs == keyTuple r fs)))

/-- The `test_type` argument of `ap02_find_duplicates`. -/
inductive TestType where
  | exact
  | near_invoice
  | near_date
  | similar_vendor
  | similar_invoice
deriving DecidableEq, Repr

/-- `ap02_find_duplicates` (value level; the `df.copy()` and the in-place
date conversion of the copy are modelled by `ap02_prog`). -/
def ap02_find_duplicates (df : Table) (vf inf daf amf : String)
    (tt : TestType) (tol : Int) : Table :=
  match tt with
  | .exact => exactDup df [vf, inf, daf, amf]
  | .near_invoice => nearInvoiceCore (toDatetime df daf) vf inf daf amf tol
  | .near_date => nearDateCore (toDatetime df daf) vf inf daf amf tol
  | .similar_vendor => exactDup df [inf, daf, amf]
  | .similar_invoice => exactDup df [vf, daf, amf]

/-! ### Generic multi-field duplicate search (AP14) -/

/-- The untruncated partitioned result of `ap14_duplicate_fields`: blanks
filtered out of the field list, empty selection short-circuits to an empty
table, otherwise the `duplicated(subset=fields, keep=False)` filter. -/
def ap14_dups (df : Table) (fields : List String) : Table :=
  let fs := fields.filter (fun f => !(f == ""))
  if fs.isEmpty then [] else exactDup df fs

/-- `ap14_duplicate_fields`.  The second component models the
`st.warning(found, shown)` truncation signal.  The source guard is
`if error_limit and len(duplicates) > error_limit:`, so a limit of `None`
*or `0`* is falsy and suppresses truncation. -/
def ap14_duplicate_fields (df : Table) (fields : List String)
    (errorLimit : Option Nat) : Table × Option (Nat × Nat) :=
  let dups := ap14_dups df fields
  match errorLimit with
  | none => (dups, none)
  | some n =>
    if 0 < n ∧ n < dups.length then (dups.take n, some (dups.length, n))
    else (dups, none)

/-! ### Balance and limit analyzers (AP03, AP04, AP05) -/

/-- `df.groupby(vendor)[amount].sum()`: one `(vendor, sum)` row per
distinct vendor value (pandas emits groups in key order; the claims do not
fix the order and the model uses first-occurrence order). -/
def vendorBalances (df : Table) (vf amf : String) : List (Value × Int) :=
  (dropDuplicates (df.map (fun r => r.get vf))).map (fun v =>
    (v, ((df.filter (fun r => r.get vf == v)).map (fun r => (r.get amf).toNum)).sum))

/-- `ap03_debit_balances`: per-vendor net balances, filtered to strictly
positive, sorted descending. -/
def ap03_debit_balances (df : Table) (vf amf : String) : List (Value × Int) :=
  List.insertionSort (fun a b => a.2 ≥ b.2)
    ((vendorBalances df vf amf).filter (fun p => decide (0 < p.2)))

/-- A row of the exceedance result: the transaction-side vendor key, its
aggregated amount, the matched limit-side vendor key and limit, and the
`Excess_Amount` column. -/
structure LimitRow where
  vendor : Value
  balance : Int
  vendorL : Value
  limitVal : Int
  excess : Int
deriving DecidableEq, Repr

/-- The shared tail of AP04/AP05: inner-join the aggregated balances with
the limits table on vendor identity (`merge(..., how='inner')`, left order
major), keep strict exceedances, add `Excess_Amount`, sort descending. -/
def limitPipeline (bal : List (Value × Int)) (dfL : Table)
    (vfL lf : String) : List LimitRow :=
  let merged := bal.flatMap (fun p =>
    (dfL.filter (fun r => r.get vfL == p.1)).map (fun r =>
      (p.1, p.2, r.get vfL, (r.get lf).toNum)))
  let exceeds := (merged.filter (fun m => decide (m.2.2.2 < m.2.1))).map (fun m =>
    LimitRow.mk m.1 m.2.1 m.2.2.1 m.2.2.2 (m.2.1 - m.2.2.2))
  List.insertionSort (fun a b => a.excess ≥ b.excess) exceeds

/-- `ap04_exceeds_limit`: aggregate the whole transaction table, then the
join/filter/sort pipeline. -/
def ap04_exceeds_limit (dfT dfL : Table) (vfT amf vfL lf : String) : List LimitRow :=
  limitPipeline (vendorBalances dfT vfT amf) dfL vfL lf

/-- The date-window mask of `ap05_exceeds_limit_period`, applied to the
date-converted table. -/
def inWindow (daf : String) (sd ed : Int) (r : Row) : Bool :=
  decide (sd ≤ (r.get daf).toDateD) && decide ((r.get daf).toDateD ≤ ed)

/-- `ap05_exceeds_limit_period`: convert the date column on a copy,
restrict to the inclusive window, then the same aggregation and
join/filter/sort pipeline as AP04. -/
def ap05_exceeds_limit_period (dfT dfL : Table) (vfT amf daf vfL lf : String)
    (sd ed : Int) : List LimitRow :=
  let dff := (toDatetime dfT daf).filter (inWindow daf sd ed)
  limitPipeline (vendorBalances dff vfT amf) dfL vfL lf

/-! ### Store-level embedding of the analyzer bodies (mutation claim)

Pandas frames are heap objects: `df.copy()` allocates a fresh frame and
`df[col] = ...` writes the frame in place.  To state that the analyzers
never write the caller's frame, the bodies of AP01–AP03 are replayed over
an explicit store of frames: allocation returns a fresh id, and every
in-place column assignment of the source becomes a store write at the id
it targets. -/

structure PdState where
  store : Nat → Table
  next : Nat

/-- `df.copy()`: allocate a fresh frame holding the given table. -/
def PdState.alloc (s : PdState) (t : Table) : Nat × PdState :=
  (s.next, PdState.mk (fun j => if j = s.next then t else s.store j) (s.next + 1))

/-- An in-place column assignment: overwrite the frame at id `i`. -/
def PdState.write (s : PdState) (i : Nat) (t : Table) : PdState :=
  PdState.mk (fun j => if j = i then t else s.store j) s.next

/-- `ap01_aging_analysis` replayed on the store: copy the input frame,
then three in-place column assignments on the copy
(`df[date_field] = to_datetime`, `df['Days_Old'] = ...`,
`df['Age_Bucket'] = ...`). -/
def ap01_prog (s : PdState) (dfId : Nat) (dateF amf : String) (cutoff : Int)
    (ps : List Int) : PdState × Table × List (Value × Int × Nat) :=
  let a := s.alloc (s.store dfId)
  let s1 := a.2
  let s2 := s1.write a.1 (toDatetime (s1.store a.1) dateF)
  let s3 := s2.write a.1 (addDaysOld (s2.store a.1) dateF cutoff)
  let s4 := s3.write a.1 (addBucket (s3.store a.1) ps)
  (s4, s4.store a.1, agingSummary (s4.store a.1) amf)

/-- `ap02_find_duplicates` replayed on the store: copy the input frame;
the near strategies convert the copy's date column in place; every
strategy then computes its result functionally (`sort_values`,
`duplicated`, `DataFrame(...)` all return fresh frames). -/
def ap02_prog (s : PdState) (dfId : Nat) (vf inf daf amf : String)
    (tt : TestType) (tol : Int) : PdState × Table :=
  let a := s.alloc (s.store dfId)
  let s1 := a.2
  match tt with
  | .exact => (s1, exactDup (s1.store a.1) [vf, inf, daf, amf])
  | .near_invoice =>
    let s2 := s1.write a.1 (toDatetime (s1.store a.1) daf)
    (s2, nearInvoiceCore (s2.store a.1) vf inf daf amf tol)
  | .near_date =>
    let s2 := s1.write a.1 (toDatetime (s1.store a.1) daf)
    (s2, nearDateCore (s2.store a.1) vf inf daf amf tol)
  | .similar_vendor => (s1, exactDup (s1.store a.1) [inf, daf, amf])
  | .similar_invoice => (s1, exactDup (s1.store a.1) [vf, daf, amf])

/-- `ap03_debit_balances` replayed on the store: the body performs no
in-place write at all (`groupby().sum()`, the filter and the sort all
build fresh frames). -/
def ap03_prog (s : PdState) (dfId : Nat) (vf amf : String) :
    PdState × List (Value × Int) :=
  (s, ap03_debit_balances (s.store dfId) vf amf)

/-! ### Concrete scenario tables (from the spec's test scenarios) -/

/-- Scenario row `{v:"X", inv:"1", d:2024-01-01, amt:100}`. -/
def rowJan1 : Row :=
  [("v", Value.str "X"), ("inv", Value.str "1"), ("d", mkDate 2024 1 1),
   ("amt", Value.num 100)]

/-- Scenario row `{v:"X", inv:"1", d:2024-01-03, amt:100}`. -/
def rowJan3 : Row :=
  [("v", Value.str "X"), ("inv", Value.str "1"), ("d", mkDate 2024 1 3),
   ("amt", Value.num 100)]

/-- Scenario table with two identical rows. -/
def tblSame : Table := [rowJan1, rowJan1]

/-- Scenario table with the second row's date moved to 2024-01-03. -/
def tblNear : Table := [rowJan1, rowJan3]

/-- One-row table for the aging scenario: dated 2024-05-01. -/
def tblAging : Table := [[("d", mkDate 2024 5 1), ("amt", Value.num 100)]]

/-- Two-row single-column table with a duplicate value, for the AP14
truncation counterexample. -/
def tblAp14 : Table := [[("a", Value.str "x")], [("a", Value.str "x")]]

/-- Spec scenario transactions: vendor X sums to 600, vendor Y to 400. -/
def tblTrans : Table :=
  [[("v", Value.str "X"), ("amt", Value.num 600)],
   [("v", Value.str "Y"), ("amt", Value.num 400)]]

/-- Spec scenario limits: only vendor X has a limit row (500). -/
def tblLimits : Table := [[("v", Value.str "X"), ("lim", Value.num 500)]]

/-! ### Generic list lemmas -/

theorem two_le_length {α : Type} {l : List α} {a b : α} (ha : a ∈ l) (hb : b ∈ l)
    (hne : a ≠ b) : 2 ≤ l.length := by
  cases l with
  | nil => cases ha
  | cons c t =>
    rcases List.mem_cons.mp ha with rfl | ha'
    · rcases List.mem_cons.mp hb with rfl | hb'
      · exact absurd rfl hne
      · have := List.length_pos.mpr (List.ne_nil_of_mem hb')
        simp only [List.length_cons]; omega
    · have := List.length_pos.mpr (List.ne_nil_of_mem ha')
      simp only [List.length_cons]; omega

theorem mem_foldl_dd {α : Type} [DecidableEq α] (l : List α) :
    ∀ (acc : List α) (x : α),
      (x ∈ l.foldl (fun acc r => if r ∈ acc then acc else acc ++ [r]) acc)
        ↔ x ∈ acc ∨ x ∈ l := by
  induction l with
  | nil => intro acc x; simp
  | cons a t ih =>
    intro acc x
    rw [List.foldl_cons, ih]
    by_cases h : a ∈ acc
    · rw [if_pos h]
      constructor
      · rintro (h1 | h2)
        · exact Or.inl h1
        · exact Or.inr (List.mem_cons_of_mem a h2)
      · rintro (h1 | h2)
        · exact Or.inl h1
        · rcases List.mem_cons.mp h2 with rfl | h3
          · exact Or.inl h
          · exact Or.inr h3
    · rw [if_neg h]
      simp only [List.mem_append, List.mem_singleton, List.mem_cons]
      tauto

theorem nodup_foldl_dd {α : Type} [DecidableEq α] (l : List α) :
    ∀ (acc : List α), acc.Nodup →
      (l.foldl (fun acc r => if r ∈ acc then acc else acc ++ [r]) acc).Nodup := by
  induction l with
  | nil => intro acc h; exact h
  | cons a t ih =>
    intro acc h
    rw [List.foldl_cons]
    apply ih
    by_cases hmem : a ∈ acc
    · rw [if_pos hmem]; exact h
    · rw [if_neg hmem]
      rw [List.nodup_append]
      exact ⟨h, List.nodup_singleton a, by
        intro x hx hx'
        rw [List.mem_singleton] at hx'
        subst hx'
        exact hmem hx⟩

theorem mem_dropDuplicates {α : Type} [DecidableEq α] {l : List α} {x : α} :
    x ∈ dropDuplicates l ↔ x ∈ l := by
  rw [dropDuplicates, mem_foldl_dd]
  simp

theorem nodup_dropDuplicates {α : Type} [DecidableEq α] {l : List α} :
    (dropDuplicates l).Nodup :=
  nodup_foldl_dd l [] List.nodup_nil

theorem sum_counts {α : Type} [DecidableEq α] (ks : List α) :
    ((dropDuplicates ks).map (fun k => ks.count k)).sum = ks.length := by
  have hperm : List.Perm (dropDuplicates ks) ks.dedup := by
    rw [List.perm_ext_iff_of_nodup nodup_dropDuplicates ks.nodup_dedup]
    intro a
    rw [mem_dropDuplicates, List.mem_dedup]
  calc ((dropDuplicates ks).map (fun k => ks.count k)).sum
      = (ks.dedup.map (fun k => ks.count k)).sum := (hperm.map _).sum_eq
    _ = ks.length := List.sum_map_count_dedup_eq_length ks

/-- Membership in the pair scan, for a symmetric predicate: a row is
collected exactly when it has a matching partner at another position of
the group (a distinct row value, or a second occurrence of itself). -/
theorem mem_matchPairs {P : Row → Row → Bool} (hP : ∀ a b, P a b = P b a)
    {g : List Row} {x : Row} :
    x ∈ matchPairs P g ↔
      ∃ y, P x y = true ∧
        ((x ≠ y ∧ x ∈ g ∧ y ∈ g) ∨ (x = y ∧ 2 ≤ g.count x)) := by
  induction g with
  | nil => simp [matchPairs]
  | cons r rest ih =>
    simp only [matchPairs, List.mem_append, List.mem_flatMap, List.mem_filter, ih]
    constructor
    · rintro (⟨s, ⟨hs, hPrs⟩, hx⟩ | ⟨y, hPy, hcase⟩)
      · have hx' : x = r ∨ x = s := by simpa using hx
        rcases hx' with rfl | rfl
        · by_cases hrs : x = s
          · subst hrs
            refine ⟨x, hPrs, Or.inr ⟨rfl, ?_⟩⟩
            rw [List.count_cons]
            have : 0 < rest.count x := List.count_pos_iff.mpr hs
            simp only [beq_self_eq_true, if_true]
            omega
          · exact ⟨s, hPrs, Or.inl ⟨hrs, List.mem_cons_self x rest,
              List.mem_cons_of_mem x hs⟩⟩
        · by_cases hrs : x = r
          · subst hrs
            refine ⟨x, by rw [hP x x] at hPrs ⊢; exact hPrs, Or.inr ⟨rfl, ?_⟩⟩
            rw [List.count_cons]
            have : 0 < rest.count x := List.count_pos_iff.mpr hs
            simp only [beq_self_eq_true, if_true]
            omega
          · exact ⟨r, by rw [hP]; exact hPrs, Or.inl ⟨hrs,
              List.mem_cons_of_mem r hs, List.mem_cons_self r rest⟩⟩
      · rcases hcase with ⟨hne, hxg, hyg⟩ | ⟨heq, hcnt⟩
        · exact ⟨y, hPy, Or.inl ⟨hne, List.mem_cons_of_mem r hxg,
            List.mem_cons_of_mem r hyg⟩⟩
        · refine ⟨y, hPy, Or.inr ⟨heq, ?_⟩⟩
          rw [List.count_cons]
          split <;> omega
    · rintro ⟨y, hPy, ⟨hne, hx, hy⟩ | ⟨rfl, hcnt⟩⟩
      · rcases List.mem_cons.mp hx with rfl | hx'
        · have hy' : y ∈ rest := by
            rcases List.mem_cons.mp hy with rfl | h
            · exact absurd rfl hne
            · exact h
          exact Or.inl ⟨y, ⟨hy', hPy⟩, by simp⟩
        · rcases List.mem_cons.mp hy with rfl | hy'
          · refine Or.inl ⟨x, ⟨hx', ?_⟩, by simp⟩
            rw [hP]
            exact hPy
          · exact Or.inr ⟨y, hPy, Or.inl ⟨hne, hx', hy'⟩⟩
      · by_cases hxr : x = r
        · subst hxr
          have hmem : x ∈ rest := by
            rw [List.count_cons] at hcnt
            simp only [beq_self_eq_true, if_true] at hcnt
            exact List.count_pos_iff.mp (by omega)
          exact Or.inl ⟨x, ⟨hmem, hPy⟩, by simp⟩
        · refine Or.inr ⟨x, hPy, Or.inr ⟨rfl, ?_⟩⟩
          rw [List.count_cons] at hcnt
          have : (r == x) = false := beq_false_of_ne (Ne.symm hxr)
          rw [this] at hcnt
          simpa using hcnt

/-- Having a matching partner at another position is the same as the
partition key occurring at least twice (`duplicated(keep=False)`). -/
theorem partner_iff_countP (Q : Row → Bool) {l : List Row} {x : Row}
    (hQx : Q x = true) :
    (∃ y, Q y = true ∧ ((x ≠ y ∧ x ∈ l ∧ y ∈ l) ∨ (x = y ∧ 2 ≤ l.count x)))
      ↔ (x ∈ l ∧ 2 ≤ l.countP Q) := by
  constructor
  · rintro ⟨y, hQy, ⟨hne, hx, hy⟩ | ⟨rfl, hcnt⟩⟩
    · refine ⟨hx, ?_⟩
      rw [List.countP_eq_length_filter]
      exact two_le_length (List.mem_filter.mpr ⟨hx, hQx⟩)
        (List.mem_filter.mpr ⟨hy, hQy⟩) hne
    · refine ⟨List.count_pos_iff.mp (by omega), ?_⟩
      have hle : l.count x ≤ l.countP Q := by
        rw [List.count_eq_countP]
        exact List.countP_mono_left (fun a _ h => by
          have ha : a = x := by simpa using h
          rw [ha]; exact hQx)
      omega
  · rintro ⟨hx, hcnt⟩
    by_cases h : ∃ y ∈ l, Q y = true ∧ y ≠ x
    · obtain ⟨y, hy, hQy, hne⟩ := h
      exact ⟨y, hQy, Or.inl ⟨Ne.symm hne, hx, hy⟩⟩
    · push_neg at h
      refine ⟨x, hQx, Or.inr ⟨rfl, ?_⟩⟩
      have hle : l.countP Q ≤ l.count x := by
        rw [List.count_eq_countP]
        exact List.countP_mono_left (fun a ha hQa => by
          have := h a ha hQa
          simp [this])
      omega

/-! ### Row get/set lemmas -/

theorem get_mapset (t : List (String × Value)) (f : String) (v : Value)
    (h : t.any (fun p => p.1 == f) = true) :
    Row.get (t.map (fun p => if p.1 == f then (f, v) else p)) f = v := by
  induction t with
  | nil => cases h
  | cons p t ih =>
    rw [List.map_cons]
    by_cases hp : (p.1 == f) = true
    · rw [if_pos hp]
      simp [Row.get]
    · rw [if_neg hp]
      have hanyt : t.any (fun q => q.1 == f) = true := by
        rw [List.any_cons] at h
        rcases Bool.or_eq_true_iff.mp h with h' | h'
        · exact absurd h' hp
        · exact h'
      rw [Row.get, if_neg hp]
      exact ih hanyt

theorem get_append_single (t : List (String × Value)) (f : String) (v : Value) :
    Row.get (t ++ [(f, v)]) f = v ∨
      Row.get (t ++ [(f, v)]) f = Row.get t f := by
  induction t with
  | nil => left; simp [Row.get]
  | cons p t ih =>
    rw [List.cons_append, Row.get, Row.get]
    by_cases hp : (p.1 == f) = true
    · right; rw [if_pos hp, if_pos hp]
    · rw [if_neg hp, if_neg hp]
      exact ih

theorem get_append_single_absent (t : List (String × Value)) (f : String) (v : Value)
    (h : t.any (fun p => p.1 == f) = false) :
    Row.get (t ++ [(f, v)]) f = v := by
  induction t with
  | nil => simp [Row.get]
  | cons p t ih =>
    rw [List.any_cons, Bool.or_eq_false_iff] at h
    rw [List.cons_append, Row.get, if_neg (by simp [h.1])]
    exact ih h.2

theorem get_mapset_ne (t : List (String × Value)) (f g : String) (v : Value)
    (hgf : g ≠ f) :
    Row.get (t.map (fun p => if p.1 == f then (f, v) else p)) g = Row.get t g := by
  induction t with
  | nil => rfl
  | cons p t ih =>
    rw [List.map_cons]
    by_cases hp : (p.1 == f) = true
    · have hpf : p.1 = f := by simpa using hp
      rw [if_pos hp, Row.get, Row.get,
        if_neg (by simp [Ne.symm hgf]), if_neg (by simp [hpf, Ne.symm hgf])]
      exact ih
    · rw [if_neg hp, Row.get, Row.get]
      by_cases hg : (p.1 == g) = true
      · rw [if_pos hg, if_pos hg]
      · rw [if_neg hg, if_neg hg]
        exact ih

theorem get_append_single_ne (t : List (String × Value)) (f g : String) (v : Value)
    (hgf : g ≠ f) :
    Row.get (t ++ [(f, v)]) g = Row.get t g := by
  induction t with
  | nil => simp [Row.get, Ne.symm hgf]
  | cons p t ih =>
    rw [List.cons_append, Row.get, Row.get]
    by_cases hg : (p.1 == g) = true
    · rw [if_pos hg, if_pos hg]
    · rw [if_neg hg, if_neg hg]
      exact ih

theorem Row.get_set_self (r : Row) (f : String) (v : Value) :
    (r.set f v).get f = v := by
  unfold Row.set
  by_cases h : r.any (fun p => p.1 == f) = true
  · rw [if_pos h]
    exact get_mapset r f v h
  · rw [if_neg h]
    exact get_append_single_absent r f v (Bool.eq_false_iff.mpr h)

theorem Row.get_set_ne (r : Row) (f g : String) (v : Value) (hgf : g ≠ f) :
    (r.set f v).get g = r.get g := by
  unfold Row.set
  by_cases h : r.any (fun p => p.1 == f) = true
  · rw [if_pos h]
    exact get_mapset_ne r f g v hgf
  · rw [if_neg h]
    exact get_append_single_ne r f g v hgf

theorem map_set_id (t : List (String × Value)) (f : String) (v : Value)
    (habsent : ∀ p ∈ t, (p.1 == f) = false) :
    t.map (fun p => if p.1 == f then (f, v) else p) = t := by
  rw [List.map_congr_left (fun p hp => by rw [if_neg (by simp [habsent p hp])])]
  exact t.map_id

theorem mapset_get_id (r : List (String × Value)) (f : String)
    (hnd : (r.map Prod.fst).Nodup) (hany : r.any (fun p => p.1 == f) = true) :
    r.map (fun p => if p.1 == f then (f, Row.get r f) else p) = r := by
  induction r with
  | nil => cases hany
  | cons p t ih =>
    rw [List.map_cons]
    by_cases hp : (p.1 == f) = true
    · have hpf : p.1 = f := by simpa using hp
      have hget : Row.get (p :: t) f = p.2 := by rw [Row.get, if_pos hp]
      have htail : ∀ q ∈ t, (q.1 == f) = false := by
        intro q hq
        rw [List.map_cons, List.nodup_cons] at hnd
        by_contra hqf
        have hqf' : q.1 = f := by simpa using hqf
        have hin : q.1 ∈ t.map Prod.fst := List.mem_map_of_mem Prod.fst hq
        rw [hqf', ← hpf] at hin
        exact hnd.1 hin
      rw [hget, if_pos hp, map_set_id t f p.2 htail, ← hpf]
    · have hget : Row.get (p :: t) f = Row.get t f := by rw [Row.get, if_neg hp]
      have hanyt : t.any (fun q => q.1 == f) = true := by
        rw [List.any_cons] at hany
        rcases Bool.or_eq_true_iff.mp hany with h | h
        · exact absurd h hp
        · exact h
      have hndt : (t.map Prod.fst).Nodup := by
        rw [List.map_cons, List.nodup_cons] at hnd
        exact hnd.2
      rw [hget, if_neg hp, ih hndt hanyt]

theorem Row.set_get_self (r : Row) (f : String)
    (hnd : (r.map Prod.fst).Nodup) (hany : r.any (fun p => p.1 == f) = true) :
    r.set f (r.get f) = r := by
  unfold Row.set
  rw [if_pos hany]
  exact mapset_get_id r f hnd hany

theorem get_default_of_not_any (r : Row) (f : String)
    (h : r.any (fun p => p.1 == f) = false) : r.get f = Value.str "" := by
  induction r with
  | nil => rfl
  | cons p t ih =>
    rw [List.any_cons, Bool.or_eq_false_iff] at h
    rw [Row.get, if_neg (by simp [h.1])]
    exact ih h.2

/-- On a date-canonical table, the `pd.to_datetime` column conversion is
the identity. -/
theorem toDatetime_eq_self {df : Table} {daf : String} (h : DateCanon df daf) :
    toDatetime df daf = df := by
  unfold toDatetime
  have hrows : ∀ r ∈ df, r.set daf (Value.date ((r.get daf).toDateD)) = r := by
    intro r hr
    obtain ⟨hdate, hnd⟩ := h r hr
    have hany : r.any (fun p => p.1 == daf) = true := by
      by_contra hN
      rw [get_default_of_not_any r daf (Bool.eq_false_iff.mpr hN)] at hdate
      simp [Value.isDate] at hdate
    cases hval : r.get daf with
    | date d =>
      have hstep : Value.date ((Value.date d).toDateD) = r.get daf := by
        rw [hval]
        rfl
      rw [hstep]
      exact Row.set_get_self r daf hnd hany
    | str s => rw [hval] at hdate; simp [Value.isDate] at hdate
    | num n => rw [hval] at hdate; simp [Value.isDate] at hdate
  rw [List.map_congr_left hrows]
  exact df.map_id

/-! ### Membership characterizations of the duplicate strategies -/

theorem mem_nearCore {df : Table} {gfs sfs : List String} {P : Row → Row → Bool}
    (hP : ∀ a b, P a b = P b a) {x : Row} :
    x ∈ nearCore df gfs P sfs ↔
      ∃ y, keyTuple y gfs = keyTuple x gfs ∧ P x y = true ∧
        ((x ≠ y ∧ x ∈ df ∧ y ∈ df) ∨ (x = y ∧ 2 ≤ df.count x)) := by
  have hperm : List.Perm (sortByKeys df sfs) df := List.perm_insertionSort _ df
  simp only [nearCore]
  rw [mem_dropDuplicates, List.mem_flatMap]
  constructor
  · rintro ⟨k, hk, hx⟩
    rw [mem_matchPairs hP] at hx
    obtain ⟨y, hPy, hcase⟩ := hx
    rcases hcase with ⟨hne, hxg, hyg⟩ | ⟨heq, hcnt⟩
    · obtain ⟨hxs, hkx⟩ := List.mem_filter.mp hxg
      obtain ⟨hys, hky⟩ := List.mem_filter.mp hyg
      refine ⟨y, ?_, hPy, Or.inl ⟨hne, hperm.mem_iff.mp hxs, hperm.mem_iff.mp hys⟩⟩
      have h1 : keyTuple x gfs = k := by simpa using hkx
      have h2 : keyTuple y gfs = k := by simpa using hky
      rw [h1, h2]
    · subst heq
      refine ⟨x, rfl, hPy, Or.inr ⟨rfl, ?_⟩⟩
      have hsub : ((sortByKeys df sfs).filter (fun r => keyTuple r gfs == k)).count x
          ≤ (sortByKeys df sfs).count x := (List.filter_sublist _).count_le x
      have hpc : (sortByKeys df sfs).count x = df.count x := by
        rw [List.count_eq_countP, List.count_eq_countP]
        exact hperm.countP_eq _
      omega
  · rintro ⟨y, hkey, hPy, hcase⟩
    have hxdf : x ∈ df := by
      rcases hcase with ⟨_, hx, _⟩ | ⟨_, hcnt⟩
      · exact hx
      · exact List.count_pos_iff.mp (by omega)
    refine ⟨keyTuple x gfs, ?_, ?_⟩
    · rw [mem_dropDuplicates, List.mem_map]
      exact ⟨x, hperm.mem_iff.mpr hxdf, rfl⟩
    · rw [mem_matchPairs hP]
      rcases hcase with ⟨hne, hx, hy⟩ | ⟨heq, hcnt⟩
      · refine ⟨y, hPy, Or.inl ⟨hne, ?_, ?_⟩⟩
        · exact List.mem_filter.mpr ⟨hperm.mem_iff.mpr hx, by simp⟩
        · exact List.mem_filter.mpr ⟨hperm.mem_iff.mpr hy, by simp [hkey]⟩
      · subst heq
        refine ⟨x, hPy, Or.inr ⟨rfl, ?_⟩⟩
        rw [List.count_filter (by simp)]
        have hpc : (sortByKeys df sfs).count x = df.count x := by
          rw [List.count_eq_countP, List.count_eq_countP]
          exact hperm.countP_eq _
        omega

theorem nearInvoiceP_symm (daf amf : String) (tol : Int) :
    ∀ a b, nearInvoiceP daf amf tol a b = nearInvoiceP daf amf tol b a := by
  intro a b
  unfold nearInvoiceP
  rw [abs_sub_comm]
  have hamt : (a.get amf == b.get amf) = (b.get amf == a.get amf) := by
    by_cases hab : a.get amf = b.get amf
    · simp [hab]
    · simp [beq_false_of_ne hab, beq_false_of_ne (Ne.symm hab)]
  rw [hamt]

theorem nearDateP_symm (daf : String) (tol : Int) :
    ∀ a b, nearDateP daf tol a b = nearDateP daf tol b a := by
  intro a b
  unfold nearDateP
  rw [abs_sub_comm]

theorem mem_exactDup {df : Table} {fs : List String} {x : Row} :
    x ∈ exactDup df fs ↔
      x ∈ df ∧ 2 ≤ df.countP (fun s => keyTuple s fs == keyTuple x fs) := by
  unfold exactDup
  rw [List.mem_filter]
  simp

theorem mem_exactDup_partner {df : Table} {fs : List String} {x : Row} :
    x ∈ exactDup df fs ↔
      ∃ y, (keyTuple y fs == keyTuple x fs) = true ∧
        ((x ≠ y ∧ x ∈ df ∧ y ∈ df) ∨ (x = y ∧ 2 ≤ df.count x)) := by
  rw [mem_exactDup,
    ← partner_iff_countP (fun s => keyTuple s fs == keyTuple x fs) (by simp)]

theorem isDate_exists {v : Value} (h : v.isDate = true) : ∃ d, v = Value.date d := by
  cases v with
  | date d => exact ⟨d, rfl⟩
  | str s => simp [Value.isDate] at h
  | num n => simp [Value.isDate] at h

theorem poscond_mem {df : Table} {x y : Row}
    (hC : (x ≠ y ∧ x ∈ df ∧ y ∈ df) ∨ (x = y ∧ 2 ≤ df.count x)) :
    x ∈ df ∧ y ∈ df := by
  rcases hC with ⟨_, hx, hy⟩ | ⟨heq, hcnt⟩
  · exact ⟨hx, hy⟩
  · have hm : x ∈ df := List.count_pos_iff.mp (by omega)
    exact ⟨hm, heq ▸ hm⟩

/-- `near_invoice` membership on a date-canonical table: a row is reported
exactly when some row at another position shares its vendor and invoice,
has an equal amount, and has a date within the tolerance. -/
theorem mem_near_invoice {df : Table} {vf inf daf amf : String} {tol : Int}
    (h : DateCanon df daf) {x : Row} :
    x ∈ ap02_find_duplicates df vf inf daf amf TestType.near_invoice tol ↔
      ∃ y, y.get vf = x.get vf ∧ y.get inf = x.get inf ∧
        y.get amf = x.get amf ∧
        |(x.get daf).toDateD - (y.get daf).toDateD| ≤ tol ∧
        ((x ≠ y ∧ x ∈ df ∧ y ∈ df) ∨ (x = y ∧ 2 ≤ df.count x)) := by
  show x ∈ nearInvoiceCore (toDatetime df daf) vf inf daf amf tol ↔ _
  rw [toDatetime_eq_self h]
  unfold nearInvoiceCore
  rw [mem_nearCore (nearInvoiceP_symm daf amf tol)]
  constructor
  · rintro ⟨y, hkey, hp, hC⟩
    have hk2 : y.get vf = x.get vf ∧ y.get inf = x.get inf := by
      simpa [keyTuple] using hkey
    have hp2 : |(x.get daf).toDateD - (y.get daf).toDateD| ≤ tol ∧
        x.get amf = y.get amf := by
      simpa [nearInvoiceP] using hp
    exact ⟨y, hk2.1, hk2.2, hp2.2.symm, hp2.1, hC⟩
  · rintro ⟨y, h1, h2, h3, h4, hC⟩
    refine ⟨y, by simp [keyTuple, h1, h2], ?_, hC⟩
    simp [nearInvoiceP, h4, h3]

/-- `near_date` membership on a date-canonical table: a row is reported
exactly when some row at another position shares its vendor, invoice and
amount and has a date within the tolerance. -/
theorem mem_near_date {df : Table} {vf inf daf amf : String} {tol : Int}
    (h : DateCanon df daf) {x : Row} :
    x ∈ ap02_find_duplicates df vf inf daf amf TestType.near_date tol ↔
      ∃ y, y.get vf = x.get vf ∧ y.get inf = x.get inf ∧
        y.get amf = x.get amf ∧
        |(x.get daf).toDateD - (y.get daf).toDateD| ≤ tol ∧
        ((x ≠ y ∧ x ∈ df ∧ y ∈ df) ∨ (x = y ∧ 2 ≤ df.count x)) := by
  show x ∈ nearDateCore (toDatetime df daf) vf inf daf amf tol ↔ _
  rw [toDatetime_eq_self h]
  unfold nearDateCore
  rw [mem_nearCore (nearDateP_symm daf tol)]
  constructor
  · rintro ⟨y, hkey, hp, hC⟩
    have hk3 : y.get vf = x.get vf ∧ y.get inf = x.get inf ∧ y.get amf = x.get amf := by
      simpa [keyTuple] using hkey
    have hp2 : |(x.get daf).toDateD - (y.get daf).toDateD| ≤ tol := by
      simpa [nearDateP] using hp
    exact ⟨y, hk3.1, hk3.2.1, hk3.2.2, hp2, hC⟩
  · rintro ⟨y, h1, h2, h3, h4, hC⟩
    refine ⟨y, by simp [keyTuple, h1, h2, h3], ?_, hC⟩
    simp [nearDateP, h4]

/-- Claim C1: for every table whose date column is in canonical date form
and every choice of vendor/invoice/date/amount fields, the `near_invoice`
and `near_date` strategies with `tolerance_days = 0` have exactly the same
result set (membership) as the `exact` strategy: zero tolerance forces
date equality, so the near match degenerates to agreement on the full
`(vendor, invoice, date, amount)` tuple. -/
theorem near_zero_tolerance_eq_exact :
    ∀ (df : Table) (vf inf daf amf : String), DateCanon df daf →
      ∀ x : Row,
        (x ∈ ap02_find_duplicates df vf inf daf amf TestType.near_invoice 0 ↔
          x ∈ ap02_find_duplicates df vf inf daf amf TestType.exact 0)
        ∧ (x ∈ ap02_find_duplicates df vf inf daf amf TestType.near_date 0 ↔
          x ∈ ap02_find_duplicates df vf inf daf amf TestType.exact 0) := by
  intro df vf inf daf amf h x
  have hexact : x ∈ ap02_find_duplicates df vf inf daf amf TestType.exact 0 ↔
      ∃ y, (keyTuple y [vf, inf, daf, amf] == keyTuple x [vf, inf, daf, amf]) = true ∧
        ((x ≠ y ∧ x ∈ df ∧ y ∈ df) ∨ (x = y ∧ 2 ≤ df.count x)) :=
    mem_exactDup_partner
  have hdate_eq : ∀ (ymem : Row), ymem ∈ df → x ∈ df →
      |(x.get daf).toDateD - (ymem.get daf).toDateD| ≤ 0 →
      ymem.get daf = x.get daf := by
    intro y hy hx h0
    obtain ⟨a, ha⟩ := isDate_exists (h x hx).1
    obtain ⟨b, hb⟩ := isDate_exists (h y hy).1
    rw [ha, hb] at h0
    have hab : a - b = 0 := abs_nonpos_iff.mp (by simpa using h0)
    rw [ha, hb]
    have : b = a := by omega
    rw [this]
  constructor
  · rw [mem_near_invoice h, hexact]
    constructor
    · rintro ⟨y, h1, h2, h3, h4, hC⟩
      obtain ⟨hxdf, hydf⟩ := poscond_mem hC
      have hd : y.get daf = x.get daf := hdate_eq y hydf hxdf h4
      exact ⟨y, by simp [keyTuple, h1, h2, h3, hd], hC⟩
    · rintro ⟨y, hkey, hC⟩
      have hcomp : y.get vf = x.get vf ∧ y.get inf = x.get inf ∧
          y.get daf = x.get daf ∧ y.get amf = x.get amf := by
        simpa [keyTuple] using hkey
      refine ⟨y, hcomp.1, hcomp.2.1, hcomp.2.2.2, ?_, hC⟩
      rw [hcomp.2.2.1]
      simp
  · rw [mem_near_date h, hexact]
    constructor
    · rintro ⟨y, h1, h2, h3, h4, hC⟩
      obtain ⟨hxdf, hydf⟩ := poscond_mem hC
      have hd : y.get daf = x.get daf := hdate_eq y hydf hxdf h4
      exact ⟨y, by simp [keyTuple, h1, h2, h3, hd], hC⟩
    · rintro ⟨y, hkey, hC⟩
      have hcomp : y.get vf = x.get vf ∧ y.get inf = x.get inf ∧
          y.get daf = x.get daf ∧ y.get amf = x.get amf := by
        simpa [keyTuple] using hkey
      refine ⟨y, hcomp.1, hcomp.2.1, hcomp.2.2.2, ?_, hC⟩
      rw [hcomp.2.2.1]
      simp

/-- Witness for C1 at a concrete table. -/
theorem near_zero_tolerance_eq_exact_witness :
    DateCanon tblSame "d" ∧
      ((rowJan1 ∈ ap02_find_duplicates tblSame "v" "inv" "d" "amt"
          TestType.near_invoice 0 ↔
        rowJan1 ∈ ap02_find_duplicates tblSame "v" "inv" "d" "amt"
          TestType.exact 0)
      ∧ (rowJan1 ∈ ap02_find_duplicates tblSame "v" "inv" "d" "amt"
          TestType.near_date 0 ↔
        rowJan1 ∈ ap02_find_duplicates tblSame "v" "inv" "d" "amt"
          TestType.exact 0)) :=
  ⟨by decide, near_zero_tolerance_eq_exact tblSame "v" "inv" "d" "amt" (by decide) rowJan1⟩

/-- Claim C3: under `near_invoice`, a row is in the result iff some row at
another position of the table shares its `(vendor, invoice)` pair, has an
equal amount, and has a date within `tolerance_days`; and the spec's
two-row scenarios: identical rows are both reported by `exact`; with the
second date moved to 2024-01-03, `near_invoice` reports both rows at
tolerance 5 and nothing at tolerance 1. -/
theorem near_invoice_membership :
    (∀ (df : Table) (vf inf daf amf : String) (tol : Int), DateCanon df daf →
      ∀ x : Row,
        (x ∈ ap02_find_duplicates df vf inf daf amf TestType.near_invoice tol ↔
          ∃ y, y.get vf = x.get vf ∧ y.get inf = x.get inf ∧
            y.get amf = x.get amf ∧
            |(x.get daf).toDateD - (y.get daf).toDateD| ≤ tol ∧
            ((x ≠ y ∧ x ∈ df ∧ y ∈ df) ∨ (x = y ∧ 2 ≤ df.count x))))
    ∧ ap02_find_duplicates tblSame "v" "inv" "d" "amt" TestType.exact 0 = tblSame
    ∧ ap02_find_duplicates tblNear "v" "inv" "d" "amt" TestType.near_invoice 5 = tblNear
    ∧ ap02_find_duplicates tblNear "v" "inv" "d" "amt" TestType.near_invoice 1 = [] := by
  refine ⟨fun df vf inf daf amf tol h x => mem_near_invoice h, ?_, ?_, ?_⟩
  · decide
  · decide
  · decide

/-- Witness for C3 at a concrete table and row. -/
theorem near_invoice_membership_witness :
    DateCanon tblNear "d" ∧
      (rowJan1 ∈ ap02_find_duplicates tblNear "v" "inv" "d" "amt"
          TestType.near_invoice 5 ↔
        ∃ y, y.get "v" = rowJan1.get "v" ∧ y.get "inv" = rowJan1.get "inv" ∧
          y.get "amt" = rowJan1.get "amt" ∧
          |(rowJan1.get "d").toDateD - (y.get "d").toDateD| ≤ 5 ∧
          ((rowJan1 ≠ y ∧ rowJan1 ∈ tblNear ∧ y ∈ tblNear) ∨
            (rowJan1 = y ∧ 2 ≤ tblNear.count rowJan1))) :=
  ⟨by decide,
   near_invoice_membership.1 tblNear "v" "inv" "d" "amt" 5 (by decide) rowJan1⟩

theorem exactDup_idem (df : Table) (fs : List String) :
    exactDup (exactDup df fs) fs = exactDup df fs := by
  conv_lhs => rw [exactDup]
  apply List.filter_eq_self.mpr
  intro r hr
  rw [decide_eq_true_eq]
  have hr2 : 2 ≤ df.countP (fun s => keyTuple s fs == keyTuple r fs) :=
    (mem_exactDup.mp hr).2
  unfold exactDup
  rw [List.countP_filter]
  have hcong : ∀ a ∈ df,
      ((keyTuple a fs == keyTuple r fs) &&
        decide (2 ≤ df.countP (fun s => keyTuple s fs == keyTuple a fs)))
      ↔ (keyTuple a fs == keyTuple r fs) := by
    intro a _
    constructor
    · intro hand
      exact (Bool.and_eq_true_iff.mp hand).1
    · intro hbeq
      have hk : keyTuple a fs = keyTuple r fs := by simpa using hbeq
      rw [Bool.and_eq_true_iff]
      refine ⟨hbeq, ?_⟩
      rw [decide_eq_true_eq, hk]
      exact hr2
  rw [List.countP_congr hcong]
  exact hr2

/-- Claim C8: the `exact` strategy is idempotent (running it on its own
result returns the very same table), and a row whose full
`(vendor, invoice, date, amount)` tuple occurs only once in the table is
never reported. -/
theorem exact_idempotent_isolated :
    (∀ (df : Table) (vf inf daf amf : String) (tol tol2 : Int),
      ap02_find_duplicates (ap02_find_duplicates df vf inf daf amf TestType.exact tol)
          vf inf daf amf TestType.exact tol2
        = ap02_find_duplicates df vf inf daf amf TestType.exact tol)
    ∧ (∀ (df : Table) (vf inf daf amf : String) (tol : Int) (x : Row),
        df.countP (fun s =>
            keyTuple s [vf, inf, daf, amf] == keyTuple x [vf, inf, daf, amf]) ≤ 1 →
        x ∉ ap02_find_duplicates df vf inf daf amf TestType.exact tol) := by
  constructor
  · intro df vf inf daf amf tol tol2
    exact exactDup_idem df [vf, inf, daf, amf]
  · intro df vf inf daf amf tol x hcnt hmem
    have := (mem_exactDup.mp hmem).2
    omega

/-- Witness for C8: the isolated-row part at a one-row table, via the
theorem itself. -/
theorem exact_idempotent_isolated_witness :
    (tblAging.countP (fun s =>
        keyTuple s ["v", "inv", "d", "amt"] ==
          keyTuple [("d", mkDate 2024 5 1), ("amt", Value.num 100)]
            ["v", "inv", "d", "amt"]) ≤ 1)
    ∧ [("d", mkDate 2024 5 1), ("amt", Value.num 100)] ∉
        ap02_find_duplicates tblAging "v" "inv" "d" "amt" TestType.exact 0 :=
  ⟨by decide,
   exact_idempotent_isolated.2 tblAging "v" "inv" "d" "amt" 0
     [("d", mkDate 2024 5 1), ("amt", Value.num 100)] (by decide)⟩

/-- Claim C10: the `near_invoice` and `near_date` results never contain
two rows with identical values in all columns (`drop_duplicates`), and in
particular two identical matching input rows collapse to a single result
row while still being reported. -/
theorem near_results_nodup :
    (∀ (df : Table) (vf inf daf amf : String) (tol : Int),
      (ap02_find_duplicates df vf inf daf amf TestType.near_invoice tol).Nodup
      ∧ (ap02_find_duplicates df vf inf daf amf TestType.near_date tol).Nodup)
    ∧ ap02_find_duplicates tblSame "v" "inv" "d" "amt" TestType.near_invoice 0
        = [rowJan1] := by
  refine ⟨fun df vf inf daf amf tol => ⟨?_, ?_⟩, by decide⟩
  · exact nodup_dropDuplicates
  · exact nodup_dropDuplicates

theorem bucketLoop_found (days : Int) :
    ∀ (l₁ : List Int) (prev p : Int) (l₂ : List Int),
      (∀ q ∈ l₁, q < days) → days ≤ p →
      bucketLoop days prev (l₁ ++ p :: l₂) = some (bucketLabel (l₁.getLastD prev) p) := by
  intro l₁
  induction l₁ with
  | nil =>
    intro prev p l₂ _ hp
    rw [List.nil_append, bucketLoop, if_pos hp]
    rfl
  | cons q t ih =>
    intro prev p l₂ hlt hp
    have hq : q < days := hlt q (List.mem_cons_self q t)
    rw [List.cons_append, bucketLoop, if_neg (by omega),
      ih q p l₂ (fun a ha => hlt a (List.mem_cons_of_mem q ha)) hp,
      List.getLastD_cons]

theorem bucketLoop_none (days : Int) :
    ∀ (ps : List Int) (prev : Int), (∀ q ∈ ps, q < days) →
      bucketLoop days prev ps = none := by
  intro ps
  induction ps with
  | nil => intro prev _; rfl
  | cons q t ih =>
    intro prev h
    have hq : q < days := h q (List.mem_cons_self q t)
    rw [bucketLoop, if_neg (by omega)]
    exact ih q (fun a ha => h a (List.mem_cons_of_mem q ha))

/-- Claim C4: for a non-empty strictly ascending threshold list,
`assign_bucket` realizes the partition of the integer line — `Future` for
negative ages, the `{prev+1}-{period} days` label for an age that first
falls under threshold `p` (all earlier thresholds strictly below the age),
and `Over {max} days` past the last threshold; and the spec scenario: a
row dated 2024-05-01 aged against cutoff 2024-06-01 (31 days) with
thresholds `[30,60,90,120]` lands in bucket `31-60 days`. -/
theorem aging_bucket_partition :
    (∀ (ps : List Int) (d : Int), List.Sorted (· < ·) ps → ps ≠ [] →
      ((d < 0 → assignBucket ps d = "Future")
       ∧ (∀ (l₁ : List Int) (p : Int) (l₂ : List Int),
            ps = l₁ ++ p :: l₂ → 0 ≤ d → (∀ q ∈ l₁, q < d) → d ≤ p →
            assignBucket ps d = bucketLabel (l₁.getLastD 0) p)
       ∧ (0 ≤ d → (∀ q ∈ ps, q < d) →
            assignBucket ps d = overLabel (ps.getLastD 0))))
    ∧ (ap01_aging_analysis tblAging "d" "amt" (Int.ofNat (daysFromCivil 2024 6 1))
        [30, 60, 90, 120]).1.map (fun r => r.get "Age_Bucket")
      = [Value.str "31-60 days"] := by
  constructor
  · intro ps d _ _
    refine ⟨?_, ?_, ?_⟩
    · intro hneg
      rw [assignBucket, if_pos hneg]
    · intro l₁ p l₂ hps hd hlt hp
      rw [assignBucket, if_neg (by omega), hps,
        bucketLoop_found d l₁ 0 p l₂ hlt hp]
    · intro hd hall
      rw [assignBucket, if_neg (by omega), bucketLoop_none d ps 0 hall]
  · decide

/-- Witness for C4: the partition cases applied at thresholds `[30, 60]`
and age `45`. -/
theorem aging_bucket_partition_witness :
    List.Sorted (· < ·) ([30, 60] : List Int) ∧
      assignBucket [30, 60] 45 = bucketLabel 30 60 :=
  ⟨by decide,
   (aging_bucket_partition.1 [30, 60] 45 (by decide) (by decide)).2.1
     [30] 60 [] rfl (by decide) (by decide) (by decide)⟩

theorem agingSummary_counts (df : Table) (amf : String) :
    ((agingSummary df amf).map (fun t => t.2.2)).sum = df.length := by
  unfold agingSummary
  rw [List.map_map]
  have hcnt : ∀ k, (df.filter (fun r => r.get "Age_Bucket" == k)).length
      = (df.map (fun r => r.get "Age_Bucket")).count k := by
    intro k
    rw [← List.countP_eq_length_filter, List.count_eq_countP, List.countP_map]
    rfl
  have hmapeq : ((fun t : Value × Int × Nat => t.2.2) ∘ (fun k =>
      (k,
       ((df.filter (fun r => r.get "Age_Bucket" == k)).map (fun r => (r.get amf).toNum)).sum,
       (df.filter (fun r => r.get "Age_Bucket" == k)).length)))
      = fun k => (df.map (fun r => r.get "Age_Bucket")).count k := by
    funext k
    exact hcnt k
  rw [hmapeq, sum_counts]
  rw [List.length_map]

/-- Claim C5: for every input table, the `count` column of the AP01
summary sums to the number of rows of the input table. -/
theorem aging_summary_count_total :
    ∀ (df : Table) (dateF amf : String) (cutoff : Int) (ps : List Int),
      (((ap01_aging_analysis df dateF amf cutoff ps).2).map (fun t => t.2.2)).sum
        = df.length := by
  intro df dateF amf cutoff ps
  show ((agingSummary (addBucket (addDaysOld (toDatetime df dateF) dateF cutoff) ps)
      amf).map (fun t => t.2.2)).sum = df.length
  rw [agingSummary_counts]
  unfold addBucket addDaysOld toDatetime
  rw [List.length_map, List.length_map, List.length_map]

theorem limitPipeline_mem {bal : List (Value × Int)} {dfL : Table} {vfL lf : String}
    {x : LimitRow} (hx : x ∈ limitPipeline bal dfL vfL lf) :
    x.excess = x.balance - x.limitVal ∧ 0 < x.excess ∧ x.vendorL = x.vendor ∧
      ∃ r ∈ dfL, r.get vfL = x.vendor := by
  simp only [limitPipeline] at hx
  rw [List.mem_insertionSort] at hx
  obtain ⟨m, hm, rfl⟩ := List.mem_map.mp hx
  obtain ⟨hmm, hdec⟩ := List.mem_filter.mp hm
  obtain ⟨p, hp, hmin⟩ := List.mem_flatMap.mp hmm
  obtain ⟨r, hrf, hmeq⟩ := List.mem_map.mp hmin
  obtain ⟨hrL, hrk⟩ := List.mem_filter.mp hrf
  subst hmeq
  have hkey : r.get vfL = p.1 := by simpa using hrk
  have hlt : (r.get lf).toNum < p.2 := by simpa using hdec
  exact ⟨rfl, by simp only; omega, hkey, ⟨r, hrL, hkey⟩⟩

/-- Claim C6: every row of the AP04 and AP05 exceedance results satisfies
`excess = aggregated_amount - limit` with strictly positive excess, and
carries a vendor that occurs in the limits table (inner-join semantics:
vendors without a limit row are silently dropped). -/
theorem limit_rows_sound :
    ∀ (dfT dfL : Table) (vfT amf daf vfL lf : String) (sd ed : Int),
      (∀ x ∈ ap04_exceeds_limit dfT dfL vfT amf vfL lf,
        x.excess = x.balance - x.limitVal ∧ 0 < x.excess ∧ x.vendorL = x.vendor ∧
          ∃ r ∈ dfL, r.get vfL = x.vendor)
      ∧ (∀ x ∈ ap05_exceeds_limit_period dfT dfL vfT amf daf vfL lf sd ed,
        x.excess = x.balance - x.limitVal ∧ 0 < x.excess ∧ x.vendorL = x.vendor ∧
          ∃ r ∈ dfL, r.get vfL = x.vendor) := by
  intro dfT dfL vfT amf daf vfL lf sd ed
  exact ⟨fun x hx => limitPipeline_mem hx, fun x hx => limitPipeline_mem hx⟩

/-- Witness for C6: the spec scenario (vendor X at 600 against limit 500,
vendor Y absent from the limits) via the theorem itself. -/
theorem limit_rows_sound_witness :
    (LimitRow.mk (Value.str "X") 600 (Value.str "X") 500 100 ∈
      ap04_exceeds_limit tblTrans tblLimits "v" "amt" "v" "lim")
    ∧ ((LimitRow.mk (Value.str "X") 600 (Value.str "X") 500 100).excess =
        (LimitRow.mk (Value.str "X") 600 (Value.str "X") 500 100).balance -
          (LimitRow.mk (Value.str "X") 600 (Value.str "X") 500 100).limitVal
      ∧ 0 < (LimitRow.mk (Value.str "X") 600 (Value.str "X") 500 100).excess
      ∧ (LimitRow.mk (Value.str "X") 600 (Value.str "X") 500 100).vendorL =
          (LimitRow.mk (Value.str "X") 600 (Value.str "X") 500 100).vendor
      ∧ ∃ r ∈ tblLimits, r.get "v" =
          (LimitRow.mk (Value.str "X") 600 (Value.str "X") 500 100).vendor) :=
  ⟨by decide,
   (limit_rows_sound tblTrans tblLimits "v" "amt" "d" "v" "lim" 0 0).1
     (LimitRow.mk (Value.str "X") 600 (Value.str "X") 500 100) (by decide)⟩

theorem vendorBalances_conv (l : Table) (vf amf daf : String)
    (hv : vf ≠ daf) (ha : amf ≠ daf) :
    vendorBalances (l.map (fun r => r.set daf (Value.date ((r.get daf).toDateD)))) vf amf
      = vendorBalances l vf amf := by
  unfold vendorBalances
  have hgv : ∀ r : Row,
      (r.set daf (Value.date ((r.get daf).toDateD))).get vf = r.get vf :=
    fun r => Row.get_set_ne r daf vf _ hv
  have hga : ∀ r : Row,
      (r.set daf (Value.date ((r.get daf).toDateD))).get amf = r.get amf :=
    fun r => Row.get_set_ne r daf amf _ ha
  have h1 : (l.map (fun r => r.set daf (Value.date ((r.get daf).toDateD)))).map
        (fun r => r.get vf)
      = l.map (fun r => r.get vf) := by
    rw [List.map_map]
    exact List.map_congr_left (fun r _ => hgv r)
  rw [h1]
  apply List.map_congr_left
  intro v _
  congr 1
  have h2 : (l.map (fun r => r.set daf (Value.date ((r.get daf).toDateD)))).filter
        (fun r => r.get vf == v)
      = (l.filter (fun r => r.get vf == v)).map
          (fun r => r.set daf (Value.date ((r.get daf).toDateD))) := by
    rw [List.filter_map]
    congr 1
    exact List.filter_congr (fun r _ => by
      simp only [Function.comp]
      rw [hgv r])
  rw [h2, List.map_map]
  congr 1
  exact List.map_congr_left (fun r _ => by
    simp only [Function.comp]
    rw [hga r])

/-- Claim C7: with distinct vendor/amount/date column bindings, AP05 on a
date window equals AP04 applied to the subtable of transactions whose
date value lies within `[start_date, end_date]` inclusive. -/
theorem ap05_is_windowed_ap04 :
    ∀ (dfT dfL : Table) (vfT amf daf vfL lf : String) (sd ed : Int),
      vfT ≠ daf → amf ≠ daf →
      ap05_exceeds_limit_period dfT dfL vfT amf daf vfL lf sd ed
        = ap04_exceeds_limit (dfT.filter (inWindow daf sd ed)) dfL vfT amf vfL lf := by
  intro dfT dfL vfT amf daf vfL lf sd ed hv ha
  show limitPipeline
      (vendorBalances ((toDatetime dfT daf).filter (inWindow daf sd ed)) vfT amf)
      dfL vfL lf
    = limitPipeline
      (vendorBalances (dfT.filter (inWindow daf sd ed)) vfT amf) dfL vfL lf
  congr 1
  unfold toDatetime
  rw [List.filter_map]
  have hpred : ∀ r ∈ dfT,
      ((inWindow daf sd ed) ∘ (fun r => r.set daf (Value.date ((r.get daf).toDateD)))) r
        = inWindow daf sd ed r := by
    intro r _
    simp only [Function.comp]
    unfold inWindow
    rw [Row.get_set_self]
    rfl
  rw [List.filter_congr hpred]
  exact vendorBalances_conv (dfT.filter (inWindow daf sd ed)) vfT amf daf hv ha

/-- Witness for C7 at the concrete scenario tables. -/
theorem ap05_is_windowed_ap04_witness :
    ("v" : String) ≠ "d" ∧ ("amt" : String) ≠ "d" ∧
      ap05_exceeds_limit_period tblTrans tblLimits "v" "amt" "d" "v" "lim" 0 0
        = ap04_exceeds_limit (tblTrans.filter (inWindow "d" 0 0)) tblLimits
            "v" "amt" "v" "lim" :=
  ⟨by decide, by decide,
   ap05_is_windowed_ap04 tblTrans tblLimits "v" "amt" "d" "v" "lim" 0 0
     (by decide) (by decide)⟩

/-- Counterexample for C2: with `max_results` set to `0` and a result of 2
rows (which exceeds 0), the source's truthiness guard
(`if error_limit and ...`) treats the limit as unset: the full result is
returned and no truncation is signalled, contradicting the claim's
"truncate to the first max_results rows and signal truncation" for every
set value. -/
theorem ap14_limit_zero_counterexample :
    0 < (ap14_dups tblAp14 ["a"]).length ∧
    ap14_duplicate_fields tblAp14 ["a"] (some 0)
      ≠ ((ap14_dups tblAp14 ["a"]).take 0,
          some ((ap14_dups tblAp14 ["a"]).length, 0)) ∧
    ap14_duplicate_fields tblAp14 ["a"] (some 0) = (ap14_dups tblAp14 ["a"], none) :=
  ⟨by decide, by decide, by decide⟩

/-- Claim C2 (amended): the multi-field duplicate search truncates only
when `max_results` is set to a *positive* value: with `max_results` unset
(`None`) — or set to `0`, which the code's truthiness guard treats as
unset — the full partitioned result is returned untruncated with no
signal; when `max_results = n > 0` and the result exceeds `n`, exactly the
first `n` rows of the unsorted partitioned result are returned and
truncation is signalled with (total found, shown). -/
theorem ap14_truncation :
    ∀ (df : Table) (fields : List String),
      ap14_duplicate_fields df fields none = (ap14_dups df fields, none)
      ∧ ap14_duplicate_fields df fields (some 0) = (ap14_dups df fields, none)
      ∧ (∀ n : Nat, 0 < n → (ap14_dups df fields).length ≤ n →
          ap14_duplicate_fields df fields (some n) = (ap14_dups df fields, none))
      ∧ (∀ n : Nat, 0 < n → n < (ap14_dups df fields).length →
          ap14_duplicate_fields df fields (some n)
            = ((ap14_dups df fields).take n,
                some ((ap14_dups df fields).length, n))) := by
  intro df fields
  refine ⟨rfl, ?_, ?_, ?_⟩
  · simp only [ap14_duplicate_fields]
    rw [if_neg (fun h => absurd h.1 (lt_irrefl 0))]
  · intro n hn hle
    simp only [ap14_duplicate_fields]
    rw [if_neg (fun h => absurd h.2 (by omega))]
  · intro n hn hlt
    simp only [ap14_duplicate_fields]
    rw [if_pos ⟨hn, hlt⟩]

/-- Witness for the amended C2: truncation to 1 row of 2 with the (2, 1)
signal, via the theorem itself. -/
theorem ap14_truncation_witness :
    (0 : Nat) < 1 ∧ 1 < (ap14_dups tblAp14 ["a"]).length ∧
      ap14_duplicate_fields tblAp14 ["a"] (some 1)
        = ((ap14_dups tblAp14 ["a"]).take 1,
            some ((ap14_dups tblAp14 ["a"]).length, 1)) :=
  ⟨by decide, by decide,
   (ap14_truncation tblAp14 ["a"]).2.2.2 1 (by decide) (by decide)⟩

/-- Claim C9: replayed over the explicit frame store, none of AP01, AP02
(any strategy) or AP03 changes the caller's frame: each body copies the
input before its in-place column assignments (or performs none), so the
store still holds the original table at the input id afterwards. -/
theorem analyzers_preserve_input :
    ∀ (s : PdState) (dfId : Nat), dfId < s.next →
      ∀ (dateF amf vf inf daf amf2 vf3 amf3 : String) (cutoff : Int)
        (ps : List Int) (tt : TestType) (tol : Int),
        (ap01_prog s dfId dateF amf cutoff ps).1.store dfId = s.store dfId
        ∧ (ap02_prog s dfId vf inf daf amf2 tt tol).1.store dfId = s.store dfId
        ∧ (ap03_prog s dfId vf3 amf3).1.store dfId = s.store dfId := by
  intro s dfId h dateF amf vf inf daf amf2 vf3 amf3 cutoff ps tt tol
  have hne : dfId ≠ s.next := Nat.ne_of_lt h
  refine ⟨?_, ?_, rfl⟩
  · simp only [ap01_prog, PdState.alloc, PdState.write]
    simp [hne]
  · cases tt <;> simp [ap02_prog, PdState.alloc, PdState.write, hne]

/-- Witness for C9 on a one-frame store. -/
theorem analyzers_preserve_input_witness :
    (0 : Nat) < (PdState.mk (fun _ => tblSame) 1).next ∧
      (ap01_prog (PdState.mk (fun _ => tblSame) 1) 0 "d" "amt" 0 []).1.store 0
        = (PdState.mk (fun _ => tblSame) 1).store 0 :=
  ⟨by decide,
   (analyzers_preserve_input (PdState.mk (fun _ => tblSame) 1) 0 (by decide)
     "d" "amt" "v" "inv" "d" "amt" "v" "amt" 0 [] TestType.exact 0).1⟩
